import Mathlib

/-!
Verification of the axis-construction algorithm of
`optuna/visualization/_parallel_coordinate.py` (`_get_parallel_coordinate_plot`).

Shallow embedding conventions:
* Python floats are modelled as rationals (`ℚ`).
* `math.log10`, `math.pow(10, ·)` and the `"{:.3g}"` float formatting come from
  Python's standard library, external to the repository; they are abstracted as
  fields of a `MathOps` record that the embedded function takes as a parameter.
* `_is_log_scale` and `_is_categorical` live in `optuna.visualization._utils`,
  outside the analysed file; the claims are conditioned only on their Boolean
  outcome, so they are passed in as opaque predicates.
* A Python `dict` of trial parameters is modelled as an association list, and the
  defaultdict-based category vocabulary as a list of keys in insertion order
  (index = assigned code).
-/

set_option autoImplicit false

namespace ParallelCoordinate

/-- Trial states of `optuna.trial.TrialState`; only `complete` matters here. -/
inductive TrialState where
  | running
  | complete
  | pruned
  | fail
  | waiting
deriving DecidableEq, Repr

/-- `optuna._study_direction.StudyDirection`. -/
inductive StudyDirection where
  | notSet
  | minimize
  | maximize
deriving DecidableEq, Repr

/-- A raw parameter value stored in a trial: numeric (Python float/int, modelled
as `ℚ`) or non-numeric (modelled by its string form). -/
inductive ParamValue where
  | num (q : ℚ)
  | str (s : String)
deriving DecidableEq, Repr

/-- The numeric reading of a raw value, used where the Python code applies
numeric operations (`min`/`max` on the plain branch).  On a non-numeric value
the Python code would raise `TypeError`; the spec leaves mixed-typed parameters
undefined, so that case is mapped to an arbitrary rational. -/
def ParamValue.asNum : ParamValue → ℚ
  | .num q => q
  | .str _ => 0

/-- The display form of a raw value (plotly renders the raw objects of
`ticktext`; for the string values of a categorical parameter this is the string
itself). -/
def ParamValue.displayVal : ParamValue → String
  | .num q => toString q
  | .str s => s

/-- `optuna.trial.FrozenTrial`, restricted to the fields the algorithm reads:
completion state, the parameter mapping (`t.params`, a dict modelled as an
association list) and the objective value (`t.value`). -/
structure FrozenTrial where
  state : TrialState
  params : List (String × ParamValue)
  value : Option ℚ
deriving DecidableEq, Repr

/-- `optuna.study.Study`, restricted to the fields the algorithm reads. -/
structure Study where
  direction : StudyDirection
  trials : List FrozenTrial
deriving DecidableEq, Repr

/-- External mathematical operations used by the source (`math.log10`,
`math.pow(10, ·)`, `"{:.3g}".format`). -/
structure MathOps where
  log10 : ParamValue → ℚ
  pow10 : ℚ → ℚ
  fmt3g : ℚ → String

/-- One entry of the `dimensions` list handed to `go.Parcoords`: a dict with
keys `label`, `values`, `range` and, on the log-scale and categorical branches
only, `tickvals`/`ticktext`. -/
structure Dim where
  label : String
  values : List ℚ
  range : ℚ × ℚ
  tickvals : Option (List ℚ) := none
  ticktext : Option (List String) := none
deriving DecidableEq, Repr

/-- The `go.Parcoords` trace: its dimension list and the `reversescale` line
styling flag (the other styling constants carry no information). -/
structure Trace where
  dims : List Dim
  reversescale : Bool
deriving DecidableEq, Repr

/-- The returned `go.Figure`: its `data` list of traces. -/
structure Figure where
  data : List Trace
deriving DecidableEq, Repr

/-- The `ValueError` raised for an unknown requested parameter name. -/
inductive PlotError where
  | unknownParameter (name : String)
deriving DecidableEq, Repr

/-- Python `min` over a list (line 126/137/157/165); the empty case raises in
Python and is never reached by the algorithm. -/
def listMin : List ℚ → ℚ
  | [] => 0
  | x :: xs => xs.foldl min x

/-- Python `max` over a list (line 126/138/157/165); the empty case raises in
Python and is never reached by the algorithm. -/
def listMax : List ℚ → ℚ
  | [] => 0
  | x :: xs => xs.foldl max x

/-- Line 98: the eligible trials, i.e. those in the `COMPLETE` state, in study
order. -/
def completedTrials (study : Study) : List FrozenTrial :=
  study.trials.filter (fun t => decide (t.state = TrialState.complete))

/-- Line 104: `all_params = {p_name for t in trials for p_name in t.params.keys()}`,
the union of parameter names over the given trials (a set; represented as a
duplicate-free list). -/
def allParamNames (trials : List FrozenTrial) : List String :=
  ((trials.map (fun t => t.params.map Prod.fst)).flatten).dedup

/-- Lines 105-108: the first requested name absent from `all_params`, if any
(the Python loop raises at the first offender). -/
def findUnknown (ps : List String) (allP : List String) : Option String :=
  ps.find? (fun p => !(allP.contains p))

/-- Line 110: `sorted_params = sorted(list(all_params))` where `all_params` was
replaced by `set(params)` when an explicit list was given. -/
def sortedParamList (trials : List FrozenTrial) : Option (List String) → List String
  | none => (allParamNames trials).insertionSort (· ≤ ·)
  | some ps => (ps.dedup).insertionSort (· ≤ ·)

/-- Lines 112-117: the effective target function; when none is supplied it
reads `t.value` (the `cast` in the source asserts the value is present on a
completed trial; an absent value is mapped to an arbitrary rational). -/
def effectiveTarget (target : Option (FrozenTrial → ℚ)) : FrozenTrial → ℚ :=
  match target with
  | none => fun t => t.value.getD 0
  | some f => f

/-- Lines 112-120: `reversescale` is `study.direction == MINIMIZE` when no
custom target is given, `True` otherwise. -/
def reversescaleOf (study : Study) (target : Option (FrozenTrial → ℚ)) : Bool :=
  match target with
  | none => decide (study.direction = StudyDirection.minimize)
  | some _ => true

/-- Lines 122-128: the target dimension. -/
def targetDim (tgt : FrozenTrial → ℚ) (trials : List FrozenTrial)
    (targetName : String) : Dim :=
  { label := targetName
    values := trials.map tgt
    range := (listMin (trials.map tgt), listMax (trials.map tgt)) }

/-- Lines 130-133: the raw values of parameter `p`, one per eligible trial that
has `p` in its parameter mapping, in trial order. -/
def collectValues (trials : List FrozenTrial) (p : String) : List ParamValue :=
  trials.filterMap (fun t => t.params.lookup p)

/-- Lines 145/155/163: a parameter name shorter than 20 characters is shown in
full, otherwise its first 17 characters followed by `"..."`. -/
def truncateLabel (s : String) : String :=
  if s.length < 20 then s else s.take 17 ++ "..."

/-- Python `list(range(a, b))` over integers. -/
def intRange (a b : ℤ) : List ℤ :=
  (List.range (b - a).toNat).map (fun (i : ℕ) => a + (i : ℤ))

/-- Lines 139-143: integer ticks from `ceil(min_value)` (inclusive) to
`ceil(max_value)` (exclusive); then `min_value` is prepended when not in the
list, and `max_value` appended when not in the (updated) list. -/
def logTickvals (minV maxV : ℚ) : List ℚ :=
  let tickvals0 := (intRange ⌈minV⌉ ⌈maxV⌉).map (fun (k : ℤ) => (k : ℚ))
  let tickvals1 := if minV ∈ tickvals0 then tickvals0 else minV :: tickvals0
  if maxV ∈ tickvals1 then tickvals1 else tickvals1 ++ [maxV]

/-- Lines 135-150: the dimension of a log-scaled parameter. -/
def logDim (ops : MathOps) (p : String) (raw : List ParamValue) : Dim :=
  let values := raw.map ops.log10
  let minV := listMin values
  let maxV := listMax values
  let tickvals := logTickvals minV maxV
  { label := truncateLabel p
    values := values
    range := (minV, maxV)
    tickvals := some tickvals
    ticktext := some (tickvals.map (fun x => ops.fmt3g (ops.pow10 x))) }

/-- One lookup in the defaultdict vocabulary (`vocab[v]` assigns the next code
`len(vocab)` on a missing key): the key list after looking up `v`. -/
def insertVocab (vocab : List ParamValue) (v : ParamValue) : List ParamValue :=
  if v ∈ vocab then vocab else vocab ++ [v]

/-- Lines 152-153: the vocabulary after looking up every raw value in order;
the code of a key is its index in this list. -/
def vocabOf (raw : List ParamValue) : List ParamValue :=
  raw.foldl insertVocab []

/-- Line 159: `sorted(vocab.keys(), key=lambda x: vocab[x])` — the keys sorted
by assigned code. -/
def sortKeysByCode (vocab : List ParamValue) : List ParamValue :=
  vocab.insertionSort (fun a b => vocab.indexOf a ≤ vocab.indexOf b)

/-- Lines 151-160: the dimension of a categorical parameter. -/
def catDim (p : String) (raw : List ParamValue) : Dim :=
  let vocab := vocabOf raw
  let values := raw.map (fun v => ((vocab.indexOf v : ℕ) : ℚ))
  { label := truncateLabel p
    values := values
    range := (listMin values, listMax values)
    tickvals := some ((List.range vocab.length).map (fun (k : ℕ) => (k : ℚ)))
    ticktext := some ((sortKeysByCode vocab).map ParamValue.displayVal) }

/-- Lines 161-166: the dimension of a plain numeric parameter. -/
def plainDim (p : String) (raw : List ParamValue) : Dim :=
  let values := raw.map ParamValue.asNum
  { label := truncateLabel p
    values := values
    range := (listMin values, listMax values) }

/-- Lines 129-168: the dimension built for one parameter name, dispatching on
the (external) log-scale and categorical classifications, log first. -/
def paramDim (ops : MathOps)
    (isLog isCat : List FrozenTrial → String → Bool)
    (trials : List FrozenTrial) (p : String) : Dim :=
  let raw := collectValues trials p
  if isLog trials p then logDim ops p raw
  else if isCat trials p then catDim p raw
  else plainDim p raw

/-- Lines 89-187: `_get_parallel_coordinate_plot`.  Returns the figure, or the
`ValueError` of lines 107-108.  The figure of the no-completed-trials case has
an empty `data` list; otherwise `data` is the single `Parcoords` trace whose
dimension list starts with the target dimension. -/
def getParallelCoordinatePlot (ops : MathOps)
    (isLog isCat : List FrozenTrial → String → Bool)
    (study : Study) (params : Option (List String))
    (target : Option (FrozenTrial → ℚ)) (targetName : String) :
    Except PlotError Figure :=
  let trials := completedTrials study
  if trials.length = 0 then
    .ok { data := [] }
  else
    match params.bind (fun ps => findUnknown ps (allParamNames trials)) with
    | some bad => .error (.unknownParameter bad)
    | none =>
      let tgt := effectiveTarget target
      let dims := targetDim tgt trials targetName ::
        (sortedParamList trials params).map (paramDim ops isLog isCat trials)
      .ok { data := [{ dims := dims, reversescale := reversescaleOf study target }] }

/-- The validity condition on an explicit parameter list: every requested name
occurs in some eligible trial (vacuous when no explicit list is given). -/
def paramsOk (study : Study) : Option (List String) → Prop
  | none => True
  | some ps => ∀ p ∈ ps, p ∈ allParamNames (completedTrials study)

/-- Spec-side first-occurrence deduplication: the distinct values of a list in
the order of their first occurrence ("first-seen order"). -/
def firstSeenDistinct : List ParamValue → List ParamValue
  | [] => []
  | v :: vs => v :: (firstSeenDistinct vs).filter (fun w => decide (w ≠ v))

/-- The selected parameter name set, as the spec describes it: the distinct
parameter names over the eligible trials, or the caller's distinct names when
an explicit list is given. -/
def selectedParams (trials : List FrozenTrial) : Option (List String) → List String
  | none => allParamNames trials
  | some ps => ps.dedup

/-- The single `Parcoords` trace produced on the success path. -/
def successTrace (ops : MathOps) (isLog isCat : List FrozenTrial → String → Bool)
    (study : Study) (params : Option (List String))
    (target : Option (FrozenTrial → ℚ)) (targetName : String) : Trace where
  dims := targetDim (effectiveTarget target) (completedTrials study) targetName ::
    (sortedParamList (completedTrials study) params).map
      (paramDim ops isLog isCat (completedTrials study))
  reversescale := reversescaleOf study target

/-- Concrete operations used only to instantiate the theorems on concrete
inputs. -/
def demoOps : MathOps where
  log10 := fun v => v.asNum
  pow10 := fun q => q
  fmt3g := fun _ => "1"

/-- A classification predicate that marks nothing. -/
def noneOf : List FrozenTrial → String → Bool := fun _ _ => false

/-- A classification predicate that marks everything. -/
def allOf : List FrozenTrial → String → Bool := fun _ _ => true

/-- A completed demo trial. -/
def demoTrialA : FrozenTrial where
  state := .complete
  params := [("x", .num 1), ("y", .str "a")]
  value := some 5

/-- A second completed demo trial. -/
def demoTrialB : FrozenTrial where
  state := .complete
  params := [("x", .num 10), ("y", .str "b")]
  value := some 3

/-- A demo study with two completed trials. -/
def demoStudy : Study where
  direction := .minimize
  trials := [demoTrialA, demoTrialB]

/-- A demo study with no completed trial. -/
def demoStudyNoComplete : Study where
  direction := .minimize
  trials := [{ state := .running, params := [("z", .num 1)], value := none }]

/-- A demo study with a single completed trial carrying no parameters. -/
def demoStudyMin : Study where
  direction := .maximize
  trials := [{ state := .complete, params := [], value := some 2 }]

/-- The single dimension the algorithm produces on `demoStudyMin`. -/
def demoDimMin : Dim where
  label := "Objective Value"
  values := [2]
  range := (2, 2)

/-- The figure the algorithm produces on `demoStudyMin`. -/
def demoFigMin : Figure where
  data := [{ dims := [demoDimMin], reversescale := false }]

/-- The log-axis tick positions as the specification words them: the integer
positions of `range(ceil(minValue), ceil(maxValue))`, with `minValue`
prepended when it is not among the collected positions and `maxValue` appended
when it is not among them. -/
def specLogTicks (minV maxV : ℚ) : List ℚ :=
  let ints := (intRange ⌈minV⌉ ⌈maxV⌉).map (fun (k : ℤ) => (k : ℚ))
  let withMin := if minV ∈ ints then ints else minV :: ints
  if maxV ∈ withMin then withMin else withMin ++ [maxV]

/-! ### Facts about Python `min`/`max` over a nonempty list -/

theorem foldl_min_le_init (l : List ℚ) (b : ℚ) : l.foldl min b ≤ b := by
  induction l generalizing b with
  | nil => exact le_refl b
  | cons x xs ih => exact le_trans (ih (min b x)) (min_le_left b x)

theorem foldl_min_le_mem (l : List ℚ) (b : ℚ) {x : ℚ} (hx : x ∈ l) :
    l.foldl min b ≤ x := by
  induction l generalizing b with
  | nil => cases hx
  | cons y ys ih =>
    rcases List.mem_cons.1 hx with h | h
    · subst h
      exact le_trans (foldl_min_le_init ys (min b x)) (min_le_right b x)
    · exact ih (min b y) h

theorem foldl_min_mem (l : List ℚ) (b : ℚ) :
    l.foldl min b = b ∨ l.foldl min b ∈ l := by
  induction l generalizing b with
  | nil => exact Or.inl rfl
  | cons y ys ih =>
    rcases ih (min b y) with h | h
    · rcases min_choice b y with hb | hy
      · exact Or.inl (by rw [List.foldl_cons, h, hb])
      · exact Or.inr (by rw [List.foldl_cons, h, hy]; exact List.mem_cons_self y ys)
    · exact Or.inr (List.mem_cons_of_mem y h)

theorem foldl_max_init_le (l : List ℚ) (b : ℚ) : b ≤ l.foldl max b := by
  induction l generalizing b with
  | nil => exact le_refl b
  | cons x xs ih => exact le_trans (le_max_left b x) (ih (max b x))

theorem foldl_max_mem_le (l : List ℚ) (b : ℚ) {x : ℚ} (hx : x ∈ l) :
    x ≤ l.foldl max b := by
  induction l generalizing b with
  | nil => cases hx
  | cons y ys ih =>
    rcases List.mem_cons.1 hx with h | h
    · subst h
      exact le_trans (le_max_right b x) (foldl_max_init_le ys (max b x))
    · exact ih (max b y) h

theorem foldl_max_mem (l : List ℚ) (b : ℚ) :
    l.foldl max b = b ∨ l.foldl max b ∈ l := by
  induction l generalizing b with
  | nil => exact Or.inl rfl
  | cons y ys ih =>
    rcases ih (max b y) with h | h
    · rcases max_choice b y with hb | hy
      · exact Or.inl (by rw [List.foldl_cons, h, hb])
      · exact Or.inr (by rw [List.foldl_cons, h, hy]; exact List.mem_cons_self y ys)
    · exact Or.inr (List.mem_cons_of_mem y h)

theorem listMin_le {l : List ℚ} {x : ℚ} (hx : x ∈ l) : listMin l ≤ x := by
  cases l with
  | nil => cases hx
  | cons y ys =>
    rcases List.mem_cons.1 hx with h | h
    · subst h; exact foldl_min_le_init ys x
    · exact foldl_min_le_mem ys y h

theorem listMin_mem {l : List ℚ} (h : l ≠ []) : listMin l ∈ l := by
  cases l with
  | nil => exact absurd rfl h
  | cons y ys =>
    rcases foldl_min_mem ys y with h1 | h1
    · rw [listMin, h1]; exact List.mem_cons_self y ys
    · exact List.mem_cons_of_mem y (by rw [listMin]; exact h1)

theorem le_listMax {l : List ℚ} {x : ℚ} (hx : x ∈ l) : x ≤ listMax l := by
  cases l with
  | nil => cases hx
  | cons y ys =>
    rcases List.mem_cons.1 hx with h | h
    · subst h; exact foldl_max_init_le ys x
    · exact foldl_max_mem_le ys y h

theorem listMax_mem {l : List ℚ} (h : l ≠ []) : listMax l ∈ l := by
  cases l with
  | nil => exact absurd rfl h
  | cons y ys =>
    rcases foldl_max_mem ys y with h1 | h1
    · rw [listMax, h1]; exact List.mem_cons_self y ys
    · exact List.mem_cons_of_mem y (by rw [listMax]; exact h1)

theorem listMin_le_listMax {l : List ℚ} (h : l ≠ []) : listMin l ≤ listMax l :=
  le_listMax (listMin_mem h)

/-! ### Facts about the category vocabulary -/

theorem foldl_insertVocab_eq (l : List ParamValue) (acc : List ParamValue) :
    l.foldl insertVocab acc
      = acc ++ (firstSeenDistinct l).filter (fun w => decide (w ∉ acc)) := by
  induction l generalizing acc with
  | nil => simp [firstSeenDistinct]
  | cons v vs ih =>
    rw [List.foldl_cons, ih (insertVocab acc v)]
    unfold insertVocab
    by_cases hv : v ∈ acc
    · rw [if_pos hv]
      have hdrop : (decide (v ∉ acc)) = false := by simp [hv]
      rw [firstSeenDistinct, List.filter_cons, hdrop]
      simp only [Bool.false_eq_true, if_false, List.filter_filter]
      congr 1
      apply List.filter_congr
      intro w _
      by_cases hw : w ∈ acc
      · simp [hw]
      · have hwv : w ≠ v := fun he => hw (he ▸ hv)
        simp [hw, hwv]
    · rw [if_neg hv]
      have hkeep : (decide (v ∉ acc)) = true := by simp [hv]
      rw [firstSeenDistinct, List.filter_cons, hkeep]
      simp only [if_true, List.filter_filter, List.append_assoc,
        List.singleton_append]
      congr 2
      apply List.filter_congr
      intro w _
      by_cases hw : w ∈ acc
      · have : (decide (w ∉ acc)) = false := by simp [hw]
        simp [this, List.mem_append, hw]
      · by_cases hwv : w = v
        · subst hwv
          simp [hw, List.mem_append]
        · simp [hw, hwv, List.mem_append]

theorem vocabOf_eq_firstSeenDistinct (raw : List ParamValue) :
    vocabOf raw = firstSeenDistinct raw := by
  have h := foldl_insertVocab_eq raw []
  simpa [vocabOf] using h

theorem mem_firstSeenDistinct {raw : List ParamValue} {x : ParamValue} :
    x ∈ firstSeenDistinct raw ↔ x ∈ raw := by
  induction raw with
  | nil => simp [firstSeenDistinct]
  | cons v vs ih =>
    rw [firstSeenDistinct]
    by_cases hx : x = v
    · subst hx; simp
    · simp only [List.mem_cons, List.mem_filter, ih, hx, false_or]
      constructor
      · exact fun h => h.1
      · exact fun h => ⟨h, by simp [hx]⟩

theorem nodup_firstSeenDistinct (raw : List ParamValue) :
    (firstSeenDistinct raw).Nodup := by
  induction raw with
  | nil => simp [firstSeenDistinct]
  | cons v vs ih =>
    rw [firstSeenDistinct]
    refine List.nodup_cons.2 ⟨?_, ih.filter _⟩
    intro hmem
    rcases List.mem_filter.1 hmem with ⟨_, hne⟩
    simp at hne

theorem mem_vocabOf {raw : List ParamValue} {x : ParamValue} :
    x ∈ vocabOf raw ↔ x ∈ raw := by
  rw [vocabOf_eq_firstSeenDistinct]; exact mem_firstSeenDistinct

theorem nodup_vocabOf (raw : List ParamValue) : (vocabOf raw).Nodup := by
  rw [vocabOf_eq_firstSeenDistinct]; exact nodup_firstSeenDistinct raw

theorem vocabOf_cons (v : ParamValue) (vs : List ParamValue) :
    vocabOf (v :: vs)
      = v :: (firstSeenDistinct vs).filter (fun w => decide (w ≠ v)) := by
  rw [vocabOf_eq_firstSeenDistinct, firstSeenDistinct]

/-! ### Facts about integer ranges and tick positions -/

theorem mem_intRange {a b k : ℤ} : k ∈ intRange a b ↔ a ≤ k ∧ k < b := by
  unfold intRange
  rw [List.mem_map]
  constructor
  · rintro ⟨i, hi, h⟩
    rw [List.mem_range] at hi
    omega
  · intro h
    refine ⟨(k - a).toNat, ?_, ?_⟩
    · rw [List.mem_range]; omega
    · omega

theorem mem_logTickvals_bounds {minV maxV : ℚ} (h : minV ≤ maxV) :
    ∀ x ∈ logTickvals minV maxV, minV ≤ x ∧ x ≤ maxV := by
  intro x hx
  simp only [logTickvals] at hx
  have hint : ∀ y : ℚ,
      y ∈ (intRange ⌈minV⌉ ⌈maxV⌉).map (fun (k : ℤ) => (k : ℚ)) →
      minV ≤ y ∧ y ≤ maxV := by
    intro y hy
    rcases List.mem_map.1 hy with ⟨k, hk, rfl⟩
    rcases mem_intRange.1 hk with ⟨h1, h2⟩
    constructor
    · calc minV ≤ (⌈minV⌉ : ℚ) := Int.le_ceil minV
        _ ≤ (k : ℚ) := by exact_mod_cast h1
    · have hk2 : (k : ℚ) ≤ (⌈maxV⌉ : ℚ) - 1 := by
        have : k ≤ ⌈maxV⌉ - 1 := by omega
        exact_mod_cast this
      have : (⌈maxV⌉ : ℚ) - 1 < maxV := by
        have := Int.ceil_lt_add_one maxV
        linarith
      linarith
  set t0 := (intRange ⌈minV⌉ ⌈maxV⌉).map (fun (k : ℤ) => (k : ℚ)) with ht0def
  set t1 := if minV ∈ t0 then t0 else minV :: t0 with ht1def
  have ht1 : ∀ y ∈ t1, minV ≤ y ∧ y ≤ maxV := by
    intro y hy
    rw [ht1def] at hy
    split_ifs at hy
    · exact hint y hy
    · rcases List.mem_cons.1 hy with rfl | hy2
      · exact ⟨le_refl y, h⟩
      · exact hint y hy2
  split_ifs at hx
  · exact ht1 x hx
  · rcases List.mem_append.1 hx with hx2 | hx2
    · exact ht1 x hx2
    · rcases List.mem_singleton.1 hx2 with rfl
      exact ⟨h, le_refl x⟩

/-! ### Facts about sorting the vocabulary keys by code -/

theorem sortKeysByCode_eq {vocab : List ParamValue} (h : vocab.Nodup) :
    sortKeysByCode vocab = vocab := by
  unfold sortKeysByCode
  apply List.Sorted.insertionSort_eq
  rw [List.Sorted, List.pairwise_iff_getElem]
  intro i j hi hj hij
  show vocab.indexOf vocab[i] ≤ vocab.indexOf vocab[j]
  rw [List.indexOf_getElem h i hi, List.indexOf_getElem h j hj]
  exact le_of_lt hij

/-! ### Facts about parameter collection and validation -/

theorem lookup_isSome_of_mem_keys {l : List (String × ParamValue)} {p : String}
    (h : p ∈ l.map Prod.fst) : (l.lookup p).isSome = true := by
  induction l with
  | nil => cases h
  | cons kv rest ih =>
    rw [List.map_cons, List.mem_cons] at h
    by_cases hp : p = kv.1
    · simp [List.lookup_cons, hp]
    · rcases h with h | h
      · exact absurd h hp
      · simpa [List.lookup_cons, hp] using ih h

theorem exists_trial_of_mem_allParamNames {trials : List FrozenTrial} {p : String}
    (h : p ∈ allParamNames trials) : ∃ t ∈ trials, p ∈ t.params.map Prod.fst := by
  unfold allParamNames at h
  rw [List.mem_dedup, List.mem_flatten] at h
  rcases h with ⟨l, hl, hp⟩
  rw [List.mem_map] at hl
  rcases hl with ⟨t, ht, rfl⟩
  exact ⟨t, ht, hp⟩

theorem mem_allParamNames {trials : List FrozenTrial} {p : String} :
    p ∈ allParamNames trials ↔ ∃ t ∈ trials, p ∈ t.params.map Prod.fst := by
  constructor
  · exact exists_trial_of_mem_allParamNames
  · rintro ⟨t, ht, hp⟩
    unfold allParamNames
    rw [List.mem_dedup, List.mem_flatten]
    exact ⟨t.params.map Prod.fst, List.mem_map.2 ⟨t, ht, rfl⟩, hp⟩

theorem collectValues_ne_nil {trials : List FrozenTrial} {p : String}
    (h : p ∈ allParamNames trials) : collectValues trials p ≠ [] := by
  rcases exists_trial_of_mem_allParamNames h with ⟨t, ht, hp⟩
  have hs := lookup_isSome_of_mem_keys hp
  intro hnil
  rw [collectValues, List.filterMap_eq_nil_iff] at hnil
  rw [hnil t ht] at hs
  cases hs

theorem collectValues_eq_filter_map (trials : List FrozenTrial) (p : String) :
    collectValues trials p
      = (trials.filter (fun t => (t.params.lookup p).isSome)).map
          (fun t => (t.params.lookup p).getD (ParamValue.str "")) := by
  induction trials with
  | nil => rfl
  | cons t ts ih =>
    rw [collectValues, List.filterMap_cons]
    cases h : t.params.lookup p with
    | none =>
      rw [List.filter_cons]
      simp only [h, Option.isSome_none, Bool.false_eq_true, if_false]
      exact ih
    | some v =>
      rw [List.filter_cons]
      simp only [h, Option.isSome_some, if_true, List.map_cons, Option.getD_some]
      rw [← ih]
      rfl

theorem findUnknown_eq_none {ps allP : List String} :
    findUnknown ps allP = none ↔ ∀ p ∈ ps, p ∈ allP := by
  unfold findUnknown
  rw [List.find?_eq_none]
  constructor
  · intro h p hp
    have := h p hp
    simpa using this
  · intro h p hp
    simpa using h p hp

theorem findUnknown_eq_some {ps allP : List String} {b : String}
    (h : findUnknown ps allP = some b) : b ∈ ps ∧ b ∉ allP := by
  refine ⟨List.mem_of_find?_eq_some h, ?_⟩
  have := List.find?_some h
  simpa using this

theorem findUnknown_isSome {ps allP : List String}
    (h : ∃ p ∈ ps, p ∉ allP) : ∃ b, findUnknown ps allP = some b := by
  rcases h with ⟨p, hp, hnp⟩
  unfold findUnknown
  have : (ps.find? (fun p => !(allP.contains p))).isSome = true := by
    rw [List.find?_isSome]
    exact ⟨p, hp, by simpa using hnp⟩
  rcases Option.isSome_iff_exists.1 this with ⟨b, hb⟩
  exact ⟨b, hb⟩

/-! ### The shape of a successful run -/

theorem getPlot_ok_shape (ops : MathOps)
    (isLog isCat : List FrozenTrial → String → Bool)
    (study : Study) (params : Option (List String))
    (target : Option (FrozenTrial → ℚ)) (targetName : String)
    (h1 : completedTrials study ≠ [])
    (h2 : paramsOk study params) :
    getParallelCoordinatePlot ops isLog isCat study params target targetName =
      .ok { data := [successTrace ops isLog isCat study params target targetName] } := by
  unfold getParallelCoordinatePlot
  rw [if_neg (by simpa [List.length_eq_zero] using h1)]
  cases params with
  | none => rfl
  | some ps =>
    have hnone : (some ps).bind
        (fun ps => findUnknown ps (allParamNames (completedTrials study))) = none :=
      findUnknown_eq_none.2 h2
    rw [hnone]
    rfl

theorem vocabOf_length_pos {raw : List ParamValue} (h : raw ≠ []) :
    0 < (vocabOf raw).length := by
  cases raw with
  | nil => exact absurd rfl h
  | cons v vs => rw [vocabOf_cons]; exact Nat.succ_pos _

theorem listMin_encoded {raw : List ParamValue} (h : raw ≠ []) :
    listMin (raw.map (fun v => (((vocabOf raw).indexOf v : ℕ) : ℚ))) = 0 := by
  obtain ⟨v, vs, rfl⟩ : ∃ v vs, raw = v :: vs := by
    cases raw with
    | nil => exact absurd rfl h
    | cons v vs => exact ⟨v, vs, rfl⟩
  apply le_antisymm
  · have h0 : (vocabOf (v :: vs)).indexOf v = 0 := by
      rw [vocabOf_cons]; exact List.indexOf_cons_self _ _
    have hmem : (((vocabOf (v :: vs)).indexOf v : ℕ) : ℚ)
        ∈ (v :: vs).map (fun w => (((vocabOf (v :: vs)).indexOf w : ℕ) : ℚ)) :=
      List.mem_map.2 ⟨v, List.mem_cons_self v vs, rfl⟩
    have hle := listMin_le hmem
    rw [h0] at hle
    simpa using hle
  · have hmm := listMin_mem
      (l := (v :: vs).map (fun w => (((vocabOf (v :: vs)).indexOf w : ℕ) : ℚ)))
      (by simp)
    rcases List.mem_map.1 hmm with ⟨w, _, heq⟩
    rw [← heq]
    exact Nat.cast_nonneg _

theorem listMax_encoded {raw : List ParamValue} (h : raw ≠ []) :
    listMax (raw.map (fun v => (((vocabOf raw).indexOf v : ℕ) : ℚ)))
      = ((vocabOf raw).length : ℚ) - 1 := by
  have hpos := vocabOf_length_pos h
  apply le_antisymm
  · rcases List.mem_map.1 (listMax_mem (by simpa using h)) with ⟨w, hw, heq⟩
    have hwv : w ∈ vocabOf raw := mem_vocabOf.2 hw
    have hlt : (vocabOf raw).indexOf w < (vocabOf raw).length :=
      List.indexOf_lt_length.2 hwv
    rw [← heq]
    have hcast : ((vocabOf raw).indexOf w : ℚ) + 1 ≤ ((vocabOf raw).length : ℚ) := by
      exact_mod_cast Nat.succ_le_of_lt hlt
    linarith
  · have hlen : (vocabOf raw).length - 1 < (vocabOf raw).length := by omega
    have hwmem : (vocabOf raw)[(vocabOf raw).length - 1] ∈ vocabOf raw :=
      List.getElem_mem hlen
    have hidx : (vocabOf raw).indexOf ((vocabOf raw)[(vocabOf raw).length - 1])
        = (vocabOf raw).length - 1 :=
      List.indexOf_getElem (nodup_vocabOf raw) _ hlen
    have hwraw : (vocabOf raw)[(vocabOf raw).length - 1] ∈ raw := mem_vocabOf.1 hwmem
    have hm : (((vocabOf raw).indexOf ((vocabOf raw)[(vocabOf raw).length - 1]) : ℕ) : ℚ)
        ∈ raw.map (fun w => (((vocabOf raw).indexOf w : ℕ) : ℚ)) :=
      List.mem_map.2 ⟨_, hwraw, rfl⟩
    have hle := le_listMax hm
    rw [hidx] at hle
    have hc : (((vocabOf raw).length - 1 : ℕ) : ℚ) = ((vocabOf raw).length : ℚ) - 1 := by
      have h1 : 1 ≤ (vocabOf raw).length := hpos
      push_cast [h1]
      ring
    rw [hc] at hle
    exact hle

theorem mem_sortedParamList_none {trials : List FrozenTrial} {p : String} :
    p ∈ sortedParamList trials none ↔ p ∈ allParamNames trials := by
  unfold sortedParamList
  exact (List.perm_insertionSort _ _).mem_iff

theorem mem_sortedParamList_some {trials : List FrozenTrial} {ps : List String}
    {p : String} : p ∈ sortedParamList trials (some ps) ↔ p ∈ ps := by
  unfold sortedParamList
  rw [(List.perm_insertionSort _ _).mem_iff, List.mem_dedup]

theorem sortedParamList_sorted (trials : List FrozenTrial)
    (params : Option (List String)) :
    List.Sorted (· ≤ ·) (sortedParamList trials params) := by
  cases params with
  | none => exact List.sorted_insertionSort _ _
  | some ps => exact List.sorted_insertionSort _ _

theorem sortedParamList_perm (trials : List FrozenTrial)
    (params : Option (List String)) :
    (sortedParamList trials params).Perm (selectedParams trials params) := by
  cases params with
  | none => exact List.perm_insertionSort _ _
  | some ps => exact List.perm_insertionSort _ _

theorem getPlot_empty_shape (ops : MathOps)
    (isLog isCat : List FrozenTrial → String → Bool)
    (study : Study) (params : Option (List String))
    (target : Option (FrozenTrial → ℚ)) (targetName : String)
    (h : completedTrials study = []) :
    getParallelCoordinatePlot ops isLog isCat study params target targetName =
      .ok { data := [] } := by
  unfold getParallelCoordinatePlot
  rw [if_pos (by rw [h]; rfl)]

theorem getPlot_ok_cases {ops : MathOps}
    {isLog isCat : List FrozenTrial → String → Bool}
    {study : Study} {params : Option (List String)}
    {target : Option (FrozenTrial → ℚ)} {targetName : String} {fig : Figure}
    (h : getParallelCoordinatePlot ops isLog isCat study params target targetName
      = .ok fig) :
    fig = { data := [] } ∨
      (completedTrials study ≠ [] ∧ paramsOk study params ∧
        fig = { data := [successTrace ops isLog isCat study params target targetName] }) := by
  by_cases hnil : completedTrials study = []
  · rw [getPlot_empty_shape ops isLog isCat study params target targetName hnil] at h
    exact Or.inl (Except.ok.inj h).symm
  · cases params with
    | none =>
      rw [getPlot_ok_shape ops isLog isCat study none target targetName hnil trivial] at h
      exact Or.inr ⟨hnil, trivial, (Except.ok.inj h).symm⟩
    | some ps =>
      cases hfind : findUnknown ps (allParamNames (completedTrials study)) with
      | some b =>
        unfold getParallelCoordinatePlot at h
        rw [if_neg (by simpa [List.length_eq_zero] using hnil)] at h
        have hbind : (some ps).bind
            (fun ps => findUnknown ps (allParamNames (completedTrials study)))
            = some b := hfind
        rw [hbind] at h
        cases h
      | none =>
        have hok : paramsOk study (some ps) := findUnknown_eq_none.1 hfind
        rw [getPlot_ok_shape ops isLog isCat study (some ps) target targetName hnil hok] at h
        exact Or.inr ⟨hnil, hok, (Except.ok.inj h).symm⟩

theorem mem_allParamNames_of_mem_sortedParamList
    {study : Study} {params : Option (List String)} {p : String}
    (hok : paramsOk study params)
    (hp : p ∈ sortedParamList (completedTrials study) params) :
    p ∈ allParamNames (completedTrials study) := by
  cases params with
  | none => exact mem_sortedParamList_none.1 hp
  | some ps => exact hok p (mem_sortedParamList_some.1 hp)

/-! ### Per-branch facts about the produced dimensions -/

theorem paramDim_label (ops : MathOps)
    (isLog isCat : List FrozenTrial → String → Bool)
    (trials : List FrozenTrial) (p : String) :
    (paramDim ops isLog isCat trials p).label = truncateLabel p := by
  unfold paramDim
  split_ifs <;> rfl

theorem paramDim_values_map (ops : MathOps)
    (isLog isCat : List FrozenTrial → String → Bool)
    (trials : List FrozenTrial) (p : String) :
    ∃ g : ParamValue → ℚ,
      (paramDim ops isLog isCat trials p).values = (collectValues trials p).map g := by
  unfold paramDim
  split_ifs
  · exact ⟨ops.log10, rfl⟩
  · exact ⟨fun v => (((vocabOf (collectValues trials p)).indexOf v : ℕ) : ℚ), rfl⟩
  · exact ⟨ParamValue.asNum, rfl⟩

theorem paramDim_eq_logDim (ops : MathOps)
    (isLog isCat : List FrozenTrial → String → Bool)
    (trials : List FrozenTrial) (p : String) (h : isLog trials p = true) :
    paramDim ops isLog isCat trials p = logDim ops p (collectValues trials p) := by
  simp [paramDim, h]

theorem paramDim_eq_catDim (ops : MathOps)
    (isLog isCat : List FrozenTrial → String → Bool)
    (trials : List FrozenTrial) (p : String)
    (h1 : isLog trials p = false) (h2 : isCat trials p = true) :
    paramDim ops isLog isCat trials p = catDim p (collectValues trials p) := by
  simp [paramDim, h1, h2]

theorem paramDim_eq_plainDim (ops : MathOps)
    (isLog isCat : List FrozenTrial → String → Bool)
    (trials : List FrozenTrial) (p : String)
    (h1 : isLog trials p = false) (h2 : isCat trials p = false) :
    paramDim ops isLog isCat trials p = plainDim p (collectValues trials p) := by
  simp [paramDim, h1, h2]

theorem logDim_ticks_ok (ops : MathOps) (p : String) {raw : List ParamValue}
    (hne : raw ≠ []) :
    ∀ tvs, (logDim ops p raw).tickvals = some tvs →
      (∀ x ∈ tvs, (logDim ops p raw).range.1 ≤ x ∧ x ≤ (logDim ops p raw).range.2) ∧
      (∀ tts, (logDim ops p raw).ticktext = some tts → tts.length = tvs.length) := by
  intro tvs htvs
  simp only [logDim] at htvs ⊢
  have htv : tvs = logTickvals (listMin (raw.map ops.log10))
      (listMax (raw.map ops.log10)) := (Option.some.inj htvs).symm
  have hvne : raw.map ops.log10 ≠ [] := by
    simpa [List.map_eq_nil_iff] using hne
  have hmm : listMin (raw.map ops.log10) ≤ listMax (raw.map ops.log10) :=
    listMin_le_listMax hvne
  constructor
  · intro x hx
    rw [htv] at hx
    exact mem_logTickvals_bounds hmm x hx
  · intro tts htts
    rw [htv, ← Option.some.inj htts, List.length_map]

theorem catDim_ticks_ok (p : String) {raw : List ParamValue} (hne : raw ≠ []) :
    ∀ tvs, (catDim p raw).tickvals = some tvs →
      (∀ x ∈ tvs, (catDim p raw).range.1 ≤ x ∧ x ≤ (catDim p raw).range.2) ∧
      (∀ tts, (catDim p raw).ticktext = some tts → tts.length = tvs.length) := by
  intro tvs htvs
  simp only [catDim] at htvs ⊢
  have htv : tvs = (List.range (vocabOf raw).length).map (fun (k : ℕ) => (k : ℚ)) :=
    (Option.some.inj htvs).symm
  constructor
  · intro x hx
    rw [htv] at hx
    rcases List.mem_map.1 hx with ⟨k, hk, rfl⟩
    rw [List.mem_range] at hk
    rw [listMin_encoded hne, listMax_encoded hne]
    refine ⟨Nat.cast_nonneg k, ?_⟩
    have hcast : (k : ℚ) + 1 ≤ ((vocabOf raw).length : ℚ) := by
      exact_mod_cast Nat.succ_le_of_lt hk
    linarith
  · intro tts htts
    rw [htv, ← Option.some.inj htts]
    rw [List.length_map, List.length_map, List.length_range]
    exact (List.perm_insertionSort _ _).length_eq

theorem paramDim_ticks_ok (ops : MathOps)
    (isLog isCat : List FrozenTrial → String → Bool)
    (trials : List FrozenTrial) (p : String)
    (hne : collectValues trials p ≠ []) :
    ∀ tvs, (paramDim ops isLog isCat trials p).tickvals = some tvs →
      (∀ x ∈ tvs, (paramDim ops isLog isCat trials p).range.1 ≤ x ∧
        x ≤ (paramDim ops isLog isCat trials p).range.2) ∧
      (∀ tts, (paramDim ops isLog isCat trials p).ticktext = some tts →
        tts.length = tvs.length) := by
  cases hlog : isLog trials p with
  | true =>
    rw [paramDim_eq_logDim ops isLog isCat trials p hlog]
    exact logDim_ticks_ok ops p hne
  | false =>
    cases hcat : isCat trials p with
    | true =>
      rw [paramDim_eq_catDim ops isLog isCat trials p hlog hcat]
      exact catDim_ticks_ok p hne
    | false =>
      rw [paramDim_eq_plainDim ops isLog isCat trials p hlog hcat]
      intro tvs htvs
      cases htvs

/-! ### The claims -/

/-- C6: for every input in which no trial is in the completed state (including
an empty trial list), the call returns the figure with an empty descriptor
list rather than failing or raising any error. -/
theorem claim_C6 (ops : MathOps) (isLog isCat : List FrozenTrial → String → Bool)
    (study : Study) (params : Option (List String))
    (target : Option (FrozenTrial → ℚ)) (targetName : String)
    (h : ∀ t ∈ study.trials, t.state ≠ TrialState.complete) :
    getParallelCoordinatePlot ops isLog isCat study params target targetName =
      .ok { data := [] } := by
  apply getPlot_empty_shape
  rw [completedTrials, List.filter_eq_nil_iff]
  intro t ht
  simpa using h t ht

theorem claim_C6_witness :
    ((∀ t ∈ demoStudyNoComplete.trials, t.state ≠ TrialState.complete) ∧
      (∀ t ∈ (Study.mk StudyDirection.maximize []).trials,
        t.state ≠ TrialState.complete)) ∧
    getParallelCoordinatePlot demoOps noneOf noneOf demoStudyNoComplete none none
        "Objective Value" = .ok { data := [] } ∧
    getParallelCoordinatePlot demoOps noneOf noneOf
        (Study.mk StudyDirection.maximize []) none none
        "Objective Value" = .ok { data := [] } :=
  ⟨⟨by decide, by decide⟩,
    claim_C6 demoOps noneOf noneOf demoStudyNoComplete none none
      "Objective Value" (by decide),
    claim_C6 demoOps noneOf noneOf (Study.mk StudyDirection.maximize []) none none
      "Objective Value" (by decide)⟩

/-- C10: when no trial is in the completed state, the empty result is returned
even when the explicit parameter list contains names appearing in no trial at
all: the empty-input check precedes parameter-name validation, so no
unknown-parameter error is raised. -/
theorem claim_C10 (ops : MathOps) (isLog isCat : List FrozenTrial → String → Bool)
    (study : Study) (ps : List String)
    (target : Option (FrozenTrial → ℚ)) (targetName : String)
    (h1 : ∀ t ∈ study.trials, t.state ≠ TrialState.complete)
    (_h2 : ∀ p ∈ ps, ∀ t ∈ study.trials, p ∉ t.params.map Prod.fst) :
    getParallelCoordinatePlot ops isLog isCat study (some ps) target targetName =
      .ok { data := [] } := by
  apply getPlot_empty_shape
  rw [completedTrials, List.filter_eq_nil_iff]
  intro t ht
  simpa using h1 t ht

theorem claim_C10_witness :
    ((∀ t ∈ demoStudyNoComplete.trials, t.state ≠ TrialState.complete) ∧
      (∀ p ∈ ["nonexistent"], ∀ t ∈ demoStudyNoComplete.trials,
        p ∉ t.params.map Prod.fst)) ∧
    getParallelCoordinatePlot demoOps noneOf noneOf demoStudyNoComplete
        (some ["nonexistent"]) none "Objective Value" = .ok { data := [] } :=
  ⟨⟨by decide, by decide⟩,
    claim_C10 demoOps noneOf noneOf demoStudyNoComplete ["nonexistent"] none
      "Objective Value" (by decide) (by decide)⟩

/-- C4: with an explicit parameter list and at least one eligible trial, if
some requested name is absent from every eligible trial's parameter mapping,
the call fails with the unknown-parameter `ValueError` naming an offending
requested parameter and produces no figure. -/
theorem claim_C4 (ops : MathOps) (isLog isCat : List FrozenTrial → String → Bool)
    (study : Study) (ps : List String)
    (target : Option (FrozenTrial → ℚ)) (targetName : String)
    (h1 : completedTrials study ≠ [])
    (h2 : ∃ p ∈ ps, ∀ t ∈ completedTrials study, p ∉ t.params.map Prod.fst) :
    ∃ bad, getParallelCoordinatePlot ops isLog isCat study (some ps) target targetName
        = .error (PlotError.unknownParameter bad) ∧
      bad ∈ ps ∧ ∀ t ∈ completedTrials study, bad ∉ t.params.map Prod.fst := by
  have h2a : ∃ p ∈ ps, p ∉ allParamNames (completedTrials study) := by
    rcases h2 with ⟨p, hp, hnp⟩
    refine ⟨p, hp, fun hmem => ?_⟩
    rcases exists_trial_of_mem_allParamNames hmem with ⟨t, ht, hpt⟩
    exact hnp t ht hpt
  rcases findUnknown_isSome h2a with ⟨b, hb⟩
  refine ⟨b, ?_, (findUnknown_eq_some hb).1, ?_⟩
  · unfold getParallelCoordinatePlot
    rw [if_neg (by simpa [List.length_eq_zero] using h1)]
    have hbind : (some ps).bind
        (fun ps => findUnknown ps (allParamNames (completedTrials study)))
        = some b := hb
    rw [hbind]
  · intro t ht hpt
    exact (findUnknown_eq_some hb).2 (mem_allParamNames.2 ⟨t, ht, hpt⟩)

theorem claim_C4_witness :
    (completedTrials demoStudy ≠ [] ∧
      (∃ p ∈ ["nonexistent"], ∀ t ∈ completedTrials demoStudy,
        p ∉ t.params.map Prod.fst)) ∧
    (∃ bad, getParallelCoordinatePlot demoOps noneOf noneOf demoStudy
        (some ["nonexistent"]) none "Objective Value"
        = .error (PlotError.unknownParameter bad) ∧
      bad ∈ ["nonexistent"] ∧
      ∀ t ∈ completedTrials demoStudy, bad ∉ t.params.map Prod.fst) :=
  ⟨⟨by decide, by decide⟩,
    claim_C4 demoOps noneOf noneOf demoStudy ["nonexistent"] none
      "Objective Value" (by decide) (by decide)⟩

/-- C8: the reverseScale flag of the produced trace is true exactly when a
custom target function is supplied (unconditionally), or none is supplied and
the study's optimization direction is minimize. -/
theorem claim_C8 (ops : MathOps) (isLog isCat : List FrozenTrial → String → Bool)
    (study : Study) (params : Option (List String))
    (target : Option (FrozenTrial → ℚ)) (targetName : String)
    (h1 : completedTrials study ≠ []) (h2 : paramsOk study params) :
    ∃ tr : Trace,
      getParallelCoordinatePlot ops isLog isCat study params target targetName
        = .ok { data := [tr] } ∧
      (tr.reversescale = true ↔
        (target.isSome = true ∨
          (target = none ∧ study.direction = StudyDirection.minimize))) := by
  refine ⟨successTrace ops isLog isCat study params target targetName,
    getPlot_ok_shape ops isLog isCat study params target targetName h1 h2, ?_⟩
  show reversescaleOf study target = true ↔ _
  cases target with
  | none => simp [reversescaleOf]
  | some f => simp [reversescaleOf]

theorem claim_C8_witness :
    (completedTrials demoStudy ≠ [] ∧ paramsOk demoStudy none) ∧
    (∃ tr : Trace,
      getParallelCoordinatePlot demoOps noneOf noneOf demoStudy none none
          "Objective Value" = .ok { data := [tr] } ∧
      (tr.reversescale = true ↔
        ((none : Option (FrozenTrial → ℚ)).isSome = true ∨
          ((none : Option (FrozenTrial → ℚ)) = none ∧
            demoStudy.direction = StudyDirection.minimize)))) :=
  ⟨⟨by decide, trivial⟩,
    claim_C8 demoOps noneOf noneOf demoStudy none none "Objective Value"
      (by decide) trivial⟩

/-- C9: every parameter axis shows the full parameter name when its length is
strictly below 20 characters, and the first 17 characters followed by the
ellipsis marker when its length is at least 20. -/
theorem claim_C9 (ops : MathOps) (isLog isCat : List FrozenTrial → String → Bool)
    (study : Study) (params : Option (List String))
    (target : Option (FrozenTrial → ℚ)) (targetName : String)
    (h1 : completedTrials study ≠ []) (h2 : paramsOk study params) :
    ∃ tr : Trace,
      getParallelCoordinatePlot ops isLog isCat study params target targetName
        = .ok { data := [tr] } ∧
      (tr.dims.drop 1).map Dim.label
        = (sortedParamList (completedTrials study) params).map
            (fun p => if p.length < 20 then p else p.take 17 ++ "...") := by
  refine ⟨successTrace ops isLog isCat study params target targetName,
    getPlot_ok_shape ops isLog isCat study params target targetName h1 h2, ?_⟩
  show ((sortedParamList (completedTrials study) params).map
      (paramDim ops isLog isCat (completedTrials study))).map Dim.label = _
  rw [List.map_map]
  apply List.map_congr_left
  intro p _
  show (paramDim ops isLog isCat (completedTrials study) p).label = _
  rw [paramDim_label]
  rfl

theorem claim_C9_witness :
    (completedTrials demoStudy ≠ [] ∧ paramsOk demoStudy none) ∧
    (∃ tr : Trace,
      getParallelCoordinatePlot demoOps noneOf noneOf demoStudy none none
          "Objective Value" = .ok { data := [tr] } ∧
      (tr.dims.drop 1).map Dim.label
        = (sortedParamList (completedTrials demoStudy) none).map
            (fun p => if p.length < 20 then p else p.take 17 ++ "...")) :=
  ⟨⟨by decide, trivial⟩,
    claim_C9 demoOps noneOf noneOf demoStudy none none "Objective Value"
      (by decide) trivial⟩

/-- C3: with at least one eligible trial, the output descriptor list has
length 1 + |selected parameter set|; its first element is the target axis with
label targetName, values = the target function applied to each eligible trial
in trial order, range = (min, max) of those values, and no ticks; the
remaining elements correspond one-to-one to the selected parameter names in
lexicographic order. -/
theorem claim_C3 (ops : MathOps) (isLog isCat : List FrozenTrial → String → Bool)
    (study : Study) (params : Option (List String))
    (target : Option (FrozenTrial → ℚ)) (targetName : String)
    (h1 : completedTrials study ≠ []) (h2 : paramsOk study params) :
    ∃ tr : Trace,
      getParallelCoordinatePlot ops isLog isCat study params target targetName
        = .ok { data := [tr] } ∧
      tr.dims.length = 1 + (selectedParams (completedTrials study) params).length ∧
      (∃ d0, tr.dims.head? = some d0 ∧
        d0.label = targetName ∧
        d0.values = (completedTrials study).map (effectiveTarget target) ∧
        d0.range.1 ∈ d0.values ∧ (∀ x ∈ d0.values, d0.range.1 ≤ x) ∧
        d0.range.2 ∈ d0.values ∧ (∀ x ∈ d0.values, x ≤ d0.range.2) ∧
        d0.tickvals = none ∧ d0.ticktext = none) ∧
      tr.dims.drop 1 = (sortedParamList (completedTrials study) params).map
          (paramDim ops isLog isCat (completedTrials study)) ∧
      List.Sorted (· ≤ ·) (sortedParamList (completedTrials study) params) ∧
      (sortedParamList (completedTrials study) params).Perm
        (selectedParams (completedTrials study) params) := by
  refine ⟨successTrace ops isLog isCat study params target targetName,
    getPlot_ok_shape ops isLog isCat study params target targetName h1 h2,
    ?_, ?_, rfl, sortedParamList_sorted _ _, sortedParamList_perm _ _⟩
  · show (targetDim (effectiveTarget target) (completedTrials study) targetName ::
      (sortedParamList (completedTrials study) params).map
        (paramDim ops isLog isCat (completedTrials study))).length = _
    rw [List.length_cons, List.length_map, (sortedParamList_perm _ _).length_eq]
    omega
  · have hne : (completedTrials study).map (effectiveTarget target) ≠ [] := by
      simpa [List.map_eq_nil_iff] using h1
    refine ⟨targetDim (effectiveTarget target) (completedTrials study) targetName,
      rfl, rfl, rfl, ?_, ?_, ?_, ?_, rfl, rfl⟩
    · exact listMin_mem hne
    · intro x hx; exact listMin_le hx
    · exact listMax_mem hne
    · intro x hx; exact le_listMax hx

theorem claim_C3_witness :
    (completedTrials demoStudy ≠ [] ∧ paramsOk demoStudy none) ∧
    (∃ tr : Trace,
      getParallelCoordinatePlot demoOps noneOf noneOf demoStudy none none
          "Objective Value" = .ok { data := [tr] } ∧
      tr.dims.length = 1 + (selectedParams (completedTrials demoStudy) none).length ∧
      (∃ d0, tr.dims.head? = some d0 ∧
        d0.label = "Objective Value" ∧
        d0.values = (completedTrials demoStudy).map (effectiveTarget none) ∧
        d0.range.1 ∈ d0.values ∧ (∀ x ∈ d0.values, d0.range.1 ≤ x) ∧
        d0.range.2 ∈ d0.values ∧ (∀ x ∈ d0.values, x ≤ d0.range.2) ∧
        d0.tickvals = none ∧ d0.ticktext = none) ∧
      tr.dims.drop 1 = (sortedParamList (completedTrials demoStudy) none).map
          (paramDim demoOps noneOf noneOf (completedTrials demoStudy)) ∧
      List.Sorted (· ≤ ·) (sortedParamList (completedTrials demoStudy) none) ∧
      (sortedParamList (completedTrials demoStudy) none).Perm
        (selectedParams (completedTrials demoStudy) none)) :=
  ⟨⟨by decide, trivial⟩,
    claim_C3 demoOps noneOf noneOf demoStudy none none "Objective Value"
      (by decide) trivial⟩

/-- C5: a parameter axis receives exactly one entry, in trial order, from each
eligible trial whose parameter mapping contains the parameter, and nothing
from the others, while the target axis has one entry per eligible trial. -/
theorem claim_C5 (ops : MathOps) (isLog isCat : List FrozenTrial → String → Bool)
    (study : Study) (params : Option (List String))
    (target : Option (FrozenTrial → ℚ)) (targetName : String)
    (h1 : completedTrials study ≠ []) (h2 : paramsOk study params) :
    ∃ tr : Trace,
      getParallelCoordinatePlot ops isLog isCat study params target targetName
        = .ok { data := [tr] } ∧
      (∃ d0, tr.dims.head? = some d0 ∧
        d0.values.length = (completedTrials study).length) ∧
      tr.dims.drop 1 = (sortedParamList (completedTrials study) params).map
          (paramDim ops isLog isCat (completedTrials study)) ∧
      ∀ p ∈ sortedParamList (completedTrials study) params,
        ∃ f : ParamValue → ℚ,
          (paramDim ops isLog isCat (completedTrials study) p).values
            = ((completedTrials study).filter
                (fun t => (t.params.lookup p).isSome)).map
                (fun t => f ((t.params.lookup p).getD (ParamValue.str ""))) := by
  refine ⟨successTrace ops isLog isCat study params target targetName,
    getPlot_ok_shape ops isLog isCat study params target targetName h1 h2,
    ⟨targetDim (effectiveTarget target) (completedTrials study) targetName,
      rfl, ?_⟩, rfl, ?_⟩
  · show ((completedTrials study).map (effectiveTarget target)).length = _
    exact List.length_map _ _
  · intro p hp
    rcases paramDim_values_map ops isLog isCat (completedTrials study) p with ⟨g, hg⟩
    refine ⟨g, ?_⟩
    rw [hg, collectValues_eq_filter_map, List.map_map]
    rfl

theorem claim_C5_witness :
    (completedTrials demoStudy ≠ [] ∧ paramsOk demoStudy none) ∧
    (∃ tr : Trace,
      getParallelCoordinatePlot demoOps noneOf noneOf demoStudy none none
          "Objective Value" = .ok { data := [tr] } ∧
      (∃ d0, tr.dims.head? = some d0 ∧
        d0.values.length = (completedTrials demoStudy).length) ∧
      tr.dims.drop 1 = (sortedParamList (completedTrials demoStudy) none).map
          (paramDim demoOps noneOf noneOf (completedTrials demoStudy)) ∧
      ∀ p ∈ sortedParamList (completedTrials demoStudy) none,
        ∃ f : ParamValue → ℚ,
          (paramDim demoOps noneOf noneOf (completedTrials demoStudy) p).values
            = ((completedTrials demoStudy).filter
                (fun t => (t.params.lookup p).isSome)).map
                (fun t => f ((t.params.lookup p).getD (ParamValue.str "")))) :=
  ⟨⟨by decide, trivial⟩,
    claim_C5 demoOps noneOf noneOf demoStudy none none "Objective Value"
      (by decide) trivial⟩

/-- C7: in every successfully produced figure, every descriptor carrying ticks
has all its tick positions within or at the boundary of its range, and its
ticktext has exactly the length of its tickvals. -/
theorem claim_C7 (ops : MathOps) (isLog isCat : List FrozenTrial → String → Bool)
    (study : Study) (params : Option (List String))
    (target : Option (FrozenTrial → ℚ)) (targetName : String) (fig : Figure)
    (h : getParallelCoordinatePlot ops isLog isCat study params target targetName
      = .ok fig) :
    ∀ tr ∈ fig.data, ∀ d ∈ tr.dims, ∀ tvs, d.tickvals = some tvs →
      (∀ x ∈ tvs, d.range.1 ≤ x ∧ x ≤ d.range.2) ∧
      (∀ tts, d.ticktext = some tts → tts.length = tvs.length) := by
  intro tr htr d hd tvs htvs
  rcases getPlot_ok_cases h with hfig | ⟨hne, hok, hfig⟩
  · subst hfig
    cases htr
  · subst hfig
    have htr2 : tr ∈ [successTrace ops isLog isCat study params target targetName] := htr
    rcases List.mem_singleton.1 htr2 with rfl
    have hd2 : d ∈ targetDim (effectiveTarget target) (completedTrials study) targetName ::
        (sortedParamList (completedTrials study) params).map
          (paramDim ops isLog isCat (completedTrials study)) := hd
    rcases List.mem_cons.1 hd2 with rfl | hd3
    · cases htvs
    · rcases List.mem_map.1 hd3 with ⟨p, hp, rfl⟩
      have hpAll : p ∈ allParamNames (completedTrials study) :=
        mem_allParamNames_of_mem_sortedParamList hok hp
      exact paramDim_ticks_ok ops isLog isCat (completedTrials study) p
        (collectValues_ne_nil hpAll) tvs htvs

theorem claim_C7_witness :
    (getParallelCoordinatePlot demoOps noneOf noneOf demoStudyMin none none
        "Objective Value" = .ok demoFigMin) ∧
    (∀ tr ∈ demoFigMin.data, ∀ d ∈ tr.dims, ∀ tvs, d.tickvals = some tvs →
      (∀ x ∈ tvs, d.range.1 ≤ x ∧ x ≤ d.range.2) ∧
      (∀ tts, d.ticktext = some tts → tts.length = tvs.length)) :=
  ⟨rfl,
    claim_C7 demoOps noneOf noneOf demoStudyMin none none "Objective Value"
      demoFigMin rfl⟩

/-- C1: for a categorical parameter (with its necessarily non-empty value
sequence), each distinct raw value gets the next integer code from 0 in
first-seen order, the axis values are the codes in trial order, the range is
(0, codeCount − 1), tickvals is 0..codeCount − 1, and ticktext is the distinct
raw values ordered by assigned code. -/
theorem claim_C1 (ops : MathOps) (isLog isCat : List FrozenTrial → String → Bool)
    (trials : List FrozenTrial) (p : String)
    (hlog : isLog trials p = false) (hcat : isCat trials p = true)
    (hne : collectValues trials p ≠ []) :
    (paramDim ops isLog isCat trials p).values
      = (collectValues trials p).map
          (fun v => (((firstSeenDistinct (collectValues trials p)).indexOf v : ℕ) : ℚ)) ∧
    (paramDim ops isLog isCat trials p).range
      = (0, ((firstSeenDistinct (collectValues trials p)).length : ℚ) - 1) ∧
    (paramDim ops isLog isCat trials p).tickvals
      = some ((List.range (firstSeenDistinct (collectValues trials p)).length).map
          (fun (k : ℕ) => (k : ℚ))) ∧
    (paramDim ops isLog isCat trials p).ticktext
      = some ((firstSeenDistinct (collectValues trials p)).map ParamValue.displayVal) ∧
    (firstSeenDistinct (collectValues trials p)).Nodup ∧
    (∀ v, v ∈ firstSeenDistinct (collectValues trials p) ↔ v ∈ collectValues trials p) := by
  rw [paramDim_eq_catDim ops isLog isCat trials p hlog hcat]
  refine ⟨?_, ?_, ?_, ?_, nodup_firstSeenDistinct _, fun v => mem_firstSeenDistinct⟩
  · show (collectValues trials p).map
        (fun v => (((vocabOf (collectValues trials p)).indexOf v : ℕ) : ℚ))
      = (collectValues trials p).map
        (fun v => (((firstSeenDistinct (collectValues trials p)).indexOf v : ℕ) : ℚ))
    rw [vocabOf_eq_firstSeenDistinct]
  · show (listMin ((collectValues trials p).map
        (fun v => (((vocabOf (collectValues trials p)).indexOf v : ℕ) : ℚ))),
      listMax ((collectValues trials p).map
        (fun v => (((vocabOf (collectValues trials p)).indexOf v : ℕ) : ℚ))))
      = (0, ((firstSeenDistinct (collectValues trials p)).length : ℚ) - 1)
    rw [listMin_encoded hne, listMax_encoded hne, vocabOf_eq_firstSeenDistinct]
  · show some ((List.range (vocabOf (collectValues trials p)).length).map
        (fun (k : ℕ) => (k : ℚ)))
      = some ((List.range (firstSeenDistinct (collectValues trials p)).length).map
        (fun (k : ℕ) => (k : ℚ)))
    rw [vocabOf_eq_firstSeenDistinct]
  · show some ((sortKeysByCode (vocabOf (collectValues trials p))).map
        ParamValue.displayVal)
      = some ((firstSeenDistinct (collectValues trials p)).map ParamValue.displayVal)
    rw [sortKeysByCode_eq (nodup_vocabOf _), vocabOf_eq_firstSeenDistinct]

theorem claim_C1_witness :
    (noneOf [demoTrialA, demoTrialB] "y" = false ∧
      allOf [demoTrialA, demoTrialB] "y" = true ∧
      collectValues [demoTrialA, demoTrialB] "y" ≠ []) ∧
    ((paramDim demoOps noneOf allOf [demoTrialA, demoTrialB] "y").values
      = (collectValues [demoTrialA, demoTrialB] "y").map
          (fun v => (((firstSeenDistinct (collectValues [demoTrialA, demoTrialB] "y")).indexOf v : ℕ) : ℚ)) ∧
    (paramDim demoOps noneOf allOf [demoTrialA, demoTrialB] "y").range
      = (0, ((firstSeenDistinct (collectValues [demoTrialA, demoTrialB] "y")).length : ℚ) - 1) ∧
    (paramDim demoOps noneOf allOf [demoTrialA, demoTrialB] "y").tickvals
      = some ((List.range (firstSeenDistinct (collectValues [demoTrialA, demoTrialB] "y")).length).map
          (fun (k : ℕ) => (k : ℚ))) ∧
    (paramDim demoOps noneOf allOf [demoTrialA, demoTrialB] "y").ticktext
      = some ((firstSeenDistinct (collectValues [demoTrialA, demoTrialB] "y")).map ParamValue.displayVal) ∧
    (firstSeenDistinct (collectValues [demoTrialA, demoTrialB] "y")).Nodup ∧
    (∀ v, v ∈ firstSeenDistinct (collectValues [demoTrialA, demoTrialB] "y")
      ↔ v ∈ collectValues [demoTrialA, demoTrialB] "y")) :=
  ⟨⟨rfl, rfl, by decide⟩,
    claim_C1 demoOps noneOf allOf [demoTrialA, demoTrialB] "y" rfl rfl (by decide)⟩

/-- C2: for a log-scaled parameter with a non-empty value sequence, the axis
values are log10 of each raw value in trial order, the range is the (min, max)
of the transformed values, tickvals is range(ceil(min), ceil(max)) with min
prepended when missing and max appended when missing, and ticktext is the
3-significant-digit formatting of 10^tick for each tick. -/
theorem claim_C2 (ops : MathOps) (isLog isCat : List FrozenTrial → String → Bool)
    (trials : List FrozenTrial) (p : String)
    (hlog : isLog trials p = true)
    (hne : collectValues trials p ≠ []) :
    (paramDim ops isLog isCat trials p).values
      = (collectValues trials p).map ops.log10 ∧
    (paramDim ops isLog isCat trials p).range.1
        ∈ (paramDim ops isLog isCat trials p).values ∧
    (∀ x ∈ (paramDim ops isLog isCat trials p).values,
      (paramDim ops isLog isCat trials p).range.1 ≤ x) ∧
    (paramDim ops isLog isCat trials p).range.2
        ∈ (paramDim ops isLog isCat trials p).values ∧
    (∀ x ∈ (paramDim ops isLog isCat trials p).values,
      x ≤ (paramDim ops isLog isCat trials p).range.2) ∧
    (paramDim ops isLog isCat trials p).tickvals
      = some (specLogTicks (paramDim ops isLog isCat trials p).range.1
          (paramDim ops isLog isCat trials p).range.2) ∧
    (paramDim ops isLog isCat trials p).ticktext
      = some ((specLogTicks (paramDim ops isLog isCat trials p).range.1
          (paramDim ops isLog isCat trials p).range.2).map
            (fun x => ops.fmt3g (ops.pow10 x))) := by
  rw [paramDim_eq_logDim ops isLog isCat trials p hlog]
  have hvne : (collectValues trials p).map ops.log10 ≠ [] := by
    simpa [List.map_eq_nil_iff] using hne
  refine ⟨rfl, ?_, ?_, ?_, ?_, rfl, rfl⟩
  · exact listMin_mem hvne
  · intro x hx
    exact listMin_le hx
  · exact listMax_mem hvne
  · intro x hx
    exact le_listMax hx

theorem claim_C2_witness :
    (allOf [demoTrialA, demoTrialB] "x" = true ∧
      collectValues [demoTrialA, demoTrialB] "x" ≠ []) ∧
    ((paramDim demoOps allOf noneOf [demoTrialA, demoTrialB] "x").values
      = (collectValues [demoTrialA, demoTrialB] "x").map demoOps.log10 ∧
    (paramDim demoOps allOf noneOf [demoTrialA, demoTrialB] "x").range.1
        ∈ (paramDim demoOps allOf noneOf [demoTrialA, demoTrialB] "x").values ∧
    (∀ x ∈ (paramDim demoOps allOf noneOf [demoTrialA, demoTrialB] "x").values,
      (paramDim demoOps allOf noneOf [demoTrialA, demoTrialB] "x").range.1 ≤ x) ∧
    (paramDim demoOps allOf noneOf [demoTrialA, demoTrialB] "x").range.2
        ∈ (paramDim demoOps allOf noneOf [demoTrialA, demoTrialB] "x").values ∧
    (∀ x ∈ (paramDim demoOps allOf noneOf [demoTrialA, demoTrialB] "x").values,
      x ≤ (paramDim demoOps allOf noneOf [demoTrialA, demoTrialB] "x").range.2) ∧
    (paramDim demoOps allOf noneOf [demoTrialA, demoTrialB] "x").tickvals
      = some (specLogTicks (paramDim demoOps allOf noneOf [demoTrialA, demoTrialB] "x").range.1
          (paramDim demoOps allOf noneOf [demoTrialA, demoTrialB] "x").range.2) ∧
    (paramDim demoOps allOf noneOf [demoTrialA, demoTrialB] "x").ticktext
      = some ((specLogTicks (paramDim demoOps allOf noneOf [demoTrialA, demoTrialB] "x").range.1
          (paramDim demoOps allOf noneOf [demoTrialA, demoTrialB] "x").range.2).map
            (fun x => demoOps.fmt3g (demoOps.pow10 x)))) :=
  ⟨⟨rfl, by decide⟩,
    claim_C2 demoOps allOf noneOf [demoTrialA, demoTrialB] "x" rfl (by decide)⟩

end ParallelCoordinate
